import Mathlib

/-!
Verification development for the probec event-observation engine.

The definitions below are a shallow embedding of the Go sources:
  - `services/attestations/events/service.go` (gate, classification,
    singleton aggregation with per-bucket OR-merge, slot flush),
  - `services/blocks/events/service.go` (block delay observer),
  - `services/submitter/immediate/*.go` (per-POST outcome counters),
together with the `Bitlist` operations of the `prysmaticlabs/go-bitfield`
dependency that the aggregation code calls into (`Len`, `Count`, `Or`).

Machine integers are modelled as `Nat`/`Int` with explicit wrap-around
where the Go code relies on it (`uint64` slot decrement). Go's truncated
division and remainder on `int64` are `Int.tdiv` and `Int.tmod`.
-/

set_option autoImplicit false
set_option maxRecDepth 8000

namespace Probec

/-! ### Bitlist model (prysmaticlabs/go-bitfield)

A `Bitlist` is a byte slice; the final byte carries a delimiter bit that
marks the length. Bytes are modelled as `Nat` (values below 256).
-/

abbrev Bitlist := List Nat

/-- `bits.Len8`: the minimal number of bits needed to represent a byte
(bytes are below 256). -/
def bitLen8 (n : Nat) : Nat :=
  if n = 0 then 0
  else if n < 2 then 1
  else if n < 4 then 2
  else if n < 8 then 3
  else if n < 16 then 4
  else if n < 32 then 5
  else if n < 64 then 6
  else if n < 128 then 7
  else 8

/-- `bits.OnesCount8`: the popcount of a byte, as the sum of its eight
bit positions. -/
def natPopCount (n : Nat) : Nat :=
  n % 2 + n / 2 % 2 + n / 4 % 2 + n / 8 % 2 +
    n / 16 % 2 + n / 32 % 2 + n / 64 % 2 + n / 128 % 2

/-- `Bitlist.Len`: the bit-length of a bitlist, determined by the position
of the most significant set bit of the final byte. -/
def bitlistLen : Bitlist → Nat
  | [] => 0
  | b =>
    let msb := bitLen8 (b.getLastD 0)
    if msb = 0 then 0 else 8 * (b.length - 1) + msb - 1

/-- `Bitlist.Count`: the number of set bits, excluding the length
delimiter bit (the Go code decrements a positive popcount by one). -/
def bitlistCount (b : Bitlist) : Nat :=
  let c := (b.map natPopCount).sum
  if c > 0 then c - 1 else 0

/-- `Bitlist.Or`: fails (returns nil plus an error) when the two bit
lengths differ, else ORs the bytes. Valid bitlists have a nonzero final
byte, so equal `Len` forces equal byte length and the `zipWith` covers
exactly the byte loop of the Go code. -/
def bitlistOr (b c : Bitlist) : Option Bitlist :=
  if bitlistLen b = bitlistLen c then some (List.zipWith Nat.lor b c) else none

/-! ### Attestation data model (`services/attestations/events/service.go`) -/

/-- The fields of a `phase0.Attestation` used by the engine. Roots are
opaque 32-byte values, modelled as `Nat`. -/
structure AttEvent where
  slot : Nat
  committee : Nat
  beaconBlockRoot : Nat
  sourceRoot : Nat
  targetRoot : Nat
  aggregationBits : Bitlist
deriving DecidableEq, Repr

/-- The per-vote key the handler formats as `"%d:%x:%x:%x"`; that format
is injective on the four fields, so the key is the tuple itself. -/
structure VoteKey where
  committee : Nat
  beaconBlockRoot : Nat
  sourceRoot : Nat
  targetRoot : Nat
deriving DecidableEq, Repr

def voteKeyOf (ev : AttEvent) : VoteKey :=
  ⟨ev.committee, ev.beaconBlockRoot, ev.sourceRoot, ev.targetRoot⟩

/-- The `[120]bitfield.Bitlist` bucket array; `none` is Go's nil entry. -/
abbrev Buckets := { l : List (Option Bitlist) // l.length = 120 }

def emptyBuckets : Buckets := ⟨List.replicate 120 none, by simp⟩

def bucketsGet (bs : Buckets) (i : Nat) : Option Bitlist :=
  bs.val.getD i none

def bucketsSet (bs : Buckets) (i : Nat) (c : Option Bitlist) : Buckets :=
  ⟨bs.val.set i c, by rw [List.length_set]; exact bs.property⟩

/-- `attestationSummary`: one vote's data plus per-source bucket arrays. -/
structure AttSummary where
  committee : Nat
  beaconBlockRoot : Nat
  sourceRoot : Nat
  targetRoot : Nat
  buckets : List (String × Buckets)
deriving DecidableEq

abbrev SlotSummaries := List (VoteKey × AttSummary)

/-- `attestationSummaries`: the slot-keyed attestation table. -/
abbrev AttTable := List (Nat × SlotSummaries)

/-! ### Association-list operations standing in for Go maps -/

def lookupA {κ α : Type} [DecidableEq κ] (k : κ) : List (κ × α) → Option α
  | [] => none
  | (k2, v) :: t => if k = k2 then some v else lookupA k t

def insertA {κ α : Type} [DecidableEq κ] (k : κ) (v : α) : List (κ × α) → List (κ × α)
  | [] => [(k, v)]
  | (k2, v2) :: t => if k = k2 then (k, v) :: t else (k2, v2) :: insertA k v t

def eraseA {κ α : Type} [DecidableEq κ] (k : κ) : List (κ × α) → List (κ × α)
  | [] => []
  | (k2, v2) :: t => if k = k2 then t else (k2, v2) :: eraseA k t

/-! ### The singleton attestation handler -/

/-- The cell update of `handleAttestation`: a nil cell receives the bits;
otherwise the Go multi-assignment `buckets[bucket], err = buckets[bucket].Or(bits)`
stores `Or`'s first return value even when `Or` fails, so on a length
mismatch the cell becomes nil and the error flag is raised. -/
def mergeCell (cell : Option Bitlist) (bits : Bitlist) : Option Bitlist × Bool :=
  match cell with
  | none => (some bits, false)
  | some x =>
    match bitlistOr x bits with
    | some y => (some y, false)
    | none => (none, true)

def freshSummary (ev : AttEvent) : AttSummary :=
  ⟨ev.committee, ev.beaconBlockRoot, ev.sourceRoot, ev.targetRoot, []⟩

/-- The insert-or-create chain of `handleAttestation` down to the bucket
cell, and the cell merge. Go creates the intermediate maps eagerly and
then mutates them in place through pointers; the net table after the
merge step is the single functional insert below. Returns the updated
table and whether the OR-merge errored. -/
def insertPhase (T : AttTable) (addr : String) (ev : AttEvent) (bkt : Nat) :
    AttTable × Bool :=
  let ss := (lookupA ev.slot T).getD []
  let summary := (lookupA (voteKeyOf ev) ss).getD (freshSummary ev)
  let bs := (lookupA addr summary.buckets).getD emptyBuckets
  let m := mergeCell (bucketsGet bs bkt) ev.aggregationBits
  let bs2 := bucketsSet bs bkt m.1
  let summary2 := { summary with buckets := insertA addr bs2 summary.buckets }
  let ss2 := insertA (voteKeyOf ev) summary2 ss
  (insertA ev.slot ss2 T, m.2)

/-- `attestation.Data.Slot - 1` on a `uint64`: wraps at zero. -/
def wrapPred (s : Nat) : Nat := (s + (2 ^ 64 - 1)) % 2 ^ 64

/-- The flushed record handed to `SubmitAttestationSummary`: its slot
field and the evicted slot's summaries, which the Go code serializes to
one JSON object. -/
structure Submission where
  slot : Nat
  summaries : SlotSummaries
deriving DecidableEq

/-- `handleAttestation`: bucket guard, insert/merge, then the flush of
slot − 1 when present. Returns the new table and the submission, if any. -/
def handleAttestation (T : AttTable) (addr : String) (ev : AttEvent) (ms : Int) :
    AttTable × Option Submission :=
  let bucket := Int.tmod ms 100
  if bucket < 0 ∨ bucket > 119 then (T, none)
  else
    let p := insertPhase T addr ev bucket.toNat
    if p.2 then (p.1, none)
    else
      match lookupA (wrapPred ev.slot) p.1 with
      | none => (p.1, none)
      | some entry => (eraseA (wrapPred ev.slot) p.1, some ⟨wrapPred ev.slot, entry⟩)

/-! ### Event gate and classification (`monitorEvents`) -/

/-- Go `Duration.Milliseconds()`: truncated division of nanoseconds. -/
def goMilliseconds (ns : Int) : Int := Int.tdiv ns 1000000

/-- The delay gate `delay.Seconds() < 0 || delay.Seconds() > 12`.
`Seconds` divides the nanosecond count by 1e9 as a float64; both
thresholds (0 and 12, i.e. 12×10⁹ ns) are exact in double precision, so
the comparison is the integer one below. -/
def gateFails (ns : Int) : Bool :=
  decide (ns < 0) || decide (ns > 12 * 1000000000)

/-- The record `handleAggregateAttestation` formats and hands to
`SubmitAggregateAttestation`. -/
structure AggRecord where
  source : String
  slot : Nat
  committee : Nat
  beaconBlockRoot : Nat
  sourceRoot : Nat
  targetRoot : Nat
  aggregationBits : Bitlist
  delayMs : Int
deriving DecidableEq

/-- The observable effect of one attestation event callback: the
resulting table, an attestation-summary submission (singleton flush), an
aggregate-attestation submission, and whether `monitorEventProcessed`
observed the delay in the histogram. -/
structure AttStep where
  table : AttTable
  summarySub : Option Submission
  aggregateSub : Option AggRecord
  observed : Bool
deriving DecidableEq

/-- The attestation event callback of `monitorEvents`: gate on the delay,
observe it, then classify by `AggregationBits.Count()`. A count of one is
a singleton handled by `handleAttestation`; anything else goes to
`handleAggregateAttestation`, which queries the node version
(`nodeVersion`, `none` when the query fails and the event is dropped)
and submits one aggregate record without touching the table. -/
def monitorAttestationEvent (T : AttTable) (addr : String)
    (nodeVersion : Option String) (ev : AttEvent) (ns : Int) : AttStep :=
  if gateFails ns then ⟨T, none, none, false⟩
  else if bitlistCount ev.aggregationBits = 1 then
    let r := handleAttestation T addr ev (goMilliseconds ns)
    ⟨r.1, r.2, none, true⟩
  else
    match nodeVersion with
    | none => ⟨T, none, none, true⟩
    | some v =>
      ⟨T, none,
        some ⟨v, ev.slot, ev.committee, ev.beaconBlockRoot, ev.sourceRoot,
          ev.targetRoot, ev.aggregationBits, goMilliseconds ns⟩, true⟩

/-- Fold a sequence of singleton events (source address, event, delay in
milliseconds) through `handleAttestation`, keeping the table. -/
def processSingletons (T : AttTable) : List (String × AttEvent × Int) → AttTable
  | [] => T
  | (addr, ev, ms) :: t => processSingletons (handleAttestation T addr ev ms).1 t

/-- The slots currently present in the attestation table. -/
def tableSlots (T : AttTable) : List Nat := T.map Prod.fst

/-! ### Block delay observer (`services/blocks/events/service.go`) -/

/-- The block delay record `{"source":...,"method":"block event",...}`
built by the block event callback. -/
def blockDelayBody (source : String) (slot : Nat) (delayMs : Int) : String :=
  "\x7b\"source\":\"" ++ source ++ "\",\"method\":\"block event\",\"slot\":\"" ++
    toString slot ++ "\",\"delay_ms\":\"" ++ toString delayMs ++ "\"\x7d"

/-- The block event callback: query sync state (`syncing = none` when the
query or the capability fails, dropping the event), log when syncing but
proceed regardless, observe the delay, query the node version, and emit
the block delay record. Returns the body handed to `SubmitBlockDelay`
(if any) and whether the delay histogram was observed. -/
def blockEventHandler (syncing : Option Bool) (nodeVersion : Option String)
    (slot : Nat) (ns : Int) : Option String × Bool :=
  match syncing with
  | none => (none, false)
  | some _isSyncing =>
    match nodeVersion with
    | none => (none, true)
    | some v => (some (blockDelayBody v slot (goMilliseconds ns)), true)

/-! ### Immediate submitter per-POST outcome (`services/submitter/immediate`) -/

/-- The Prometheus counters touched by `monitorSubmission`: the
(operation, "succeeded") counter, the (operation, "failed") counter, and
the number of elapsed-time histogram observations. -/
structure SubCounters where
  succeeded : Nat
  failed : Nat
  observed : Nat
deriving DecidableEq, Repr

/-- `monitorSubmission`: one counter per call; the timer is observed only
on success. -/
def monitorSubmission (c : SubCounters) (succeeded : Bool) : SubCounters :=
  if succeeded then ⟨c.succeeded + 1, c.failed, c.observed + 1⟩
  else ⟨c.succeeded, c.failed + 1, c.observed⟩

/-- One `submitBlockDelay` POST attempt, by outcome: `createOk` is
request creation, `sendOk` is `http.DefaultClient.Do` (on failure the
response is nil), `closeOk` is the body close. The Go failure branches
log but do not return, so control falls through; when request creation
fails the subsequent `req.Header.Set` dereferences the nil request
(second component `true` marks that panic). -/
def submitBlockDelayPost (createOk sendOk closeOk : Bool) : SubCounters × Bool :=
  let c0 : SubCounters := ⟨0, 0, 0⟩
  let c1 := if createOk then c0 else monitorSubmission c0 false
  if !createOk then (c1, true)
  else
    let c2 := if sendOk then c1 else monitorSubmission c1 false
    if sendOk then
      if closeOk then (monitorSubmission c2 true, false)
      else (monitorSubmission c2 false, false)
    else (monitorSubmission c2 true, false)

/-- The bucket cell stored for `(slot, vote key, source, bucket)`. -/
def cellOf (T : AttTable) (s : Nat) (k : VoteKey) (addr : String) (i : Nat) :
    Option Bitlist :=
  match lookupA s T with
  | none => none
  | some ss =>
    match lookupA k ss with
    | none => none
    | some summ =>
      match lookupA addr summ.buckets with
      | none => none
      | some bs => bucketsGet bs i

/-! ### Association-list lemmas -/

section AssocLemmas

variable {κ α : Type} [DecidableEq κ]

theorem lookupA_insertA_self (k : κ) (v : α) (l : List (κ × α)) :
    lookupA k (insertA k v l) = some v := by
  induction l with
  | nil => simp [insertA, lookupA]
  | cons h t ih =>
    obtain ⟨k2, v2⟩ := h
    by_cases hk : k = k2
    · simp [insertA, lookupA, hk]
    · simp [insertA, lookupA, hk, ih]

theorem lookupA_insertA_ne {k k2 : κ} (h : k ≠ k2) (v : α) (l : List (κ × α)) :
    lookupA k (insertA k2 v l) = lookupA k l := by
  induction l with
  | nil => simp [insertA, lookupA, h]
  | cons hd t ih =>
    obtain ⟨k3, v3⟩ := hd
    by_cases hk : k2 = k3
    · subst hk
      simp [insertA, lookupA, h]
    · by_cases hk2 : k = k3 <;> simp [insertA, lookupA, hk, hk2, ih]

theorem lookupA_eraseA_ne {k k2 : κ} (h : k ≠ k2) (l : List (κ × α)) :
    lookupA k (eraseA k2 l) = lookupA k l := by
  induction l with
  | nil => simp [eraseA]
  | cons hd t ih =>
    obtain ⟨k3, v3⟩ := hd
    by_cases hk : k2 = k3
    · subst hk
      simp [eraseA, lookupA, h]
    · by_cases hk2 : k = k3 <;> simp [eraseA, lookupA, hk, hk2, ih]

theorem lookupA_eq_none_iff (k : κ) (l : List (κ × α)) :
    lookupA k l = none ↔ k ∉ l.map Prod.fst := by
  induction l with
  | nil => simp [lookupA]
  | cons hd t ih =>
    obtain ⟨k2, v2⟩ := hd
    by_cases hk : k = k2 <;> simp [lookupA, hk, ih]

theorem lookupA_isSome_iff (k : κ) (l : List (κ × α)) :
    (lookupA k l).isSome ↔ k ∈ l.map Prod.fst := by
  constructor
  · intro hs
    by_contra hm
    rw [← lookupA_eq_none_iff] at hm
    rw [hm] at hs
    simp at hs
  · intro hm
    rcases h : lookupA k l with _ | v
    · rw [lookupA_eq_none_iff] at h
      exact absurd hm h
    · rfl

theorem keys_insertA_of_mem {k : κ} (v : α) {l : List (κ × α)}
    (h : k ∈ l.map Prod.fst) :
    (insertA k v l).map Prod.fst = l.map Prod.fst := by
  induction l with
  | nil => simp at h
  | cons hd t ih =>
    obtain ⟨k2, v2⟩ := hd
    by_cases hk : k = k2
    · simp [insertA, hk]
    · simp only [List.map_cons, List.mem_cons] at h
      rcases h with h | h
      · exact absurd h hk
      · simp [insertA, hk, ih h]

theorem keys_insertA_of_not_mem {k : κ} (v : α) {l : List (κ × α)}
    (h : k ∉ l.map Prod.fst) :
    (insertA k v l).map Prod.fst = l.map Prod.fst ++ [k] := by
  induction l with
  | nil => simp [insertA]
  | cons hd t ih =>
    obtain ⟨k2, v2⟩ := hd
    simp only [List.map_cons, List.mem_cons] at h
    push_neg at h
    simp [insertA, h.1, ih h.2]

theorem keys_eraseA (k : κ) (l : List (κ × α)) :
    (eraseA k l).map Prod.fst = (l.map Prod.fst).erase k := by
  induction l with
  | nil => simp [eraseA]
  | cons hd t ih =>
    obtain ⟨k2, v2⟩ := hd
    by_cases hk : k = k2
    · subst hk
      simp [eraseA, List.erase_cons_head]
    · rw [List.map_cons, List.erase_cons_tail]
      · simp [eraseA, hk, ih]
      · simp [Ne.symm hk]

theorem lookupA_eraseA_self {k : κ} {l : List (κ × α)}
    (h : (l.map Prod.fst).Nodup) : lookupA k (eraseA k l) = none := by
  induction l with
  | nil => simp [eraseA, lookupA]
  | cons hd t ih =>
    obtain ⟨k2, v2⟩ := hd
    simp only [List.map_cons, List.nodup_cons] at h
    by_cases hk : k = k2
    · subst hk
      simp only [eraseA, if_pos rfl]
      rw [lookupA_eq_none_iff]
      exact h.1
    · simp [eraseA, lookupA, hk, ih h.2]

theorem keys_nodup_insertA {k : κ} (v : α) {l : List (κ × α)}
    (h : (l.map Prod.fst).Nodup) : ((insertA k v l).map Prod.fst).Nodup := by
  by_cases hm : k ∈ l.map Prod.fst
  · rwa [keys_insertA_of_mem v hm]
  · rw [keys_insertA_of_not_mem v hm]
    simp [List.nodup_append, h, hm]

end AssocLemmas

/-! ### Bucket-array lemmas -/

theorem bucketsGet_emptyBuckets (i : Nat) : bucketsGet emptyBuckets i = none := by
  unfold bucketsGet emptyBuckets List.getD
  rcases h : (List.replicate 120 (none : Option Bitlist)).get? i with _ | x
  · rfl
  · have := List.eq_of_mem_replicate (List.get?_mem h)
    rw [this]
    rfl

theorem bucketsGet_bucketsSet_self (bs : Buckets) (i : Nat) (c : Option Bitlist)
    (h : i < 120) : bucketsGet (bucketsSet bs i c) i = c := by
  unfold bucketsGet bucketsSet List.getD
  rw [List.get?_set_eq_of_lt]
  · rfl
  · rw [bs.property]; exact h

theorem bucketsSet_bucketsSet (bs : Buckets) (i : Nat) (a b : Option Bitlist) :
    bucketsSet (bucketsSet bs i a) i b = bucketsSet bs i b := by
  unfold bucketsSet
  exact Subtype.ext (List.set_set a b bs.val i)

/-! ### Bucket-index arithmetic -/

theorem bucket_nonneg {ms : Int} (h : 0 ≤ ms) : 0 ≤ Int.tmod ms 100 :=
  Int.tmod_nonneg 100 h

theorem bucket_le {ms : Int} (h : 0 ≤ ms) : Int.tmod ms 100 ≤ 99 := by
  rw [Int.tmod_eq_emod h (by norm_num)]
  have := Int.emod_lt_of_pos ms (b := 100) (by norm_num)
  omega

theorem bucket_guard_passes {ms : Int} (h : 0 ≤ ms) :
    ¬(Int.tmod ms 100 < 0 ∨ Int.tmod ms 100 > 119) := by
  have h1 := bucket_nonneg h
  have h2 := bucket_le h
  omega

theorem bucket_toNat_lt {ms : Int} (h : 0 ≤ ms) : (Int.tmod ms 100).toNat < 120 := by
  have h2 := bucket_le h
  omega

/-! ### Wrap-around slot decrement -/

theorem wrapPred_ne (s : Nat) : wrapPred s ≠ s := by
  unfold wrapPred
  intro h
  have hlt : (s + (2 ^ 64 - 1)) % 2 ^ 64 < 2 ^ 64 := Nat.mod_lt _ (by norm_num)
  have hdm := Nat.div_add_mod (s + (2 ^ 64 - 1)) (2 ^ 64)
  set q := (s + (2 ^ 64 - 1)) / 2 ^ 64 with hq
  rw [h] at hdm hlt
  omega

theorem wrapPred_succ {s : Nat} (h : s + 1 < 2 ^ 64) : wrapPred (s + 1) = s := by
  unfold wrapPred
  have : s + 1 + (2 ^ 64 - 1) = s + 2 ^ 64 := by omega
  rw [this, Nat.add_mod_right, Nat.mod_eq_of_lt (by omega)]

/-! ### Behaviour of the insert/merge phase -/

theorem insertPhase_table (T : AttTable) (addr : String) (ev : AttEvent) (bkt : Nat) :
    ∃ ss2, (insertPhase T addr ev bkt).1 = insertA ev.slot ss2 T :=
  ⟨_, rfl⟩

theorem insertPhase_fresh_no_error (T : AttTable) (addr : String) (ev : AttEvent)
    (bkt : Nat) (h : lookupA ev.slot T = none) :
    (insertPhase T addr ev bkt).2 = false := by
  unfold insertPhase
  simp only [h, Option.getD_none]
  simp [lookupA, bucketsGet_emptyBuckets, mergeCell]

theorem cellOf_insertPhase (T : AttTable) (addr : String) (ev : AttEvent)
    {bkt : Nat} (h : bkt < 120) :
    cellOf (insertPhase T addr ev bkt).1 ev.slot (voteKeyOf ev) addr bkt =
      (mergeCell (cellOf T ev.slot (voteKeyOf ev) addr bkt) ev.aggregationBits).1 := by
  unfold insertPhase cellOf
  simp only [lookupA_insertA_self]
  rw [bucketsGet_bucketsSet_self _ _ _ h]
  rcases hs : lookupA ev.slot T with _ | ss
  · simp [hs, lookupA, bucketsGet_emptyBuckets]
  · rcases hk : lookupA (voteKeyOf ev) ss with _ | summ
    · simp [hs, hk, lookupA, bucketsGet_emptyBuckets]
    · rcases ha : lookupA addr summ.buckets with _ | bs
      · simp [hs, hk, ha, bucketsGet_emptyBuckets]
      · simp [hs, hk, ha]

theorem cellOf_eraseA_ne {k s : Nat} (h : s ≠ k) (T : AttTable) (key : VoteKey)
    (addr : String) (i : Nat) :
    cellOf (eraseA k T) s key addr i = cellOf T s key addr i := by
  unfold cellOf
  rw [lookupA_eraseA_ne h]

/-- The delay histogram is observed exactly when the gate passes. -/
theorem monitorAttestationEvent_observed (T : AttTable) (addr : String)
    (nv : Option String) (ev : AttEvent) (ns : Int) :
    (monitorAttestationEvent T addr nv ev ns).observed = !gateFails ns := by
  unfold monitorAttestationEvent
  by_cases hg : gateFails ns = true
  · simp [hg]
  · simp only [Bool.not_eq_true] at hg
    rw [if_neg (by simp [hg])]
    simp only [hg, Bool.not_false]
    split
    · rfl
    · cases nv <;> rfl

/-! ### Claims -/

/-- C1, counterexample. The spec claims a singleton with delay `d` ms is
aggregated into bucket `(d mod 1000) / 100`. For a gate-passing singleton
with delay 250 ms that formula gives bucket 2, but the code
(`bucket := delay.Milliseconds() % 100`) stores the bits in bucket 50 and
leaves bucket 2 empty. -/
theorem c1_bucket_formula_counterexample :
    (250 % 1000) / 100 = 2 ∧
    cellOf (monitorAttestationEvent [] "A" none ⟨5, 0, 1, 2, 3, [3]⟩
      250000000).table 5 ⟨0, 1, 2, 3⟩ "A" 50 = some [3] ∧
    cellOf (monitorAttestationEvent [] "A" none ⟨5, 0, 1, 2, 3, [3]⟩
      250000000).table 5 ⟨0, 1, 2, 3⟩ "A" 2 = none := by
  decide

/-- C1, amended. For every singleton event that passes the delay gate
(so its millisecond delay is nonnegative), the bucket index it is
aggregated into equals `delay_ms mod 100`; that index always satisfies
`0 ≤ bucket < 120`, so the guard never discards a gate-surviving
singleton, and the cell at that index receives the OR-merge of the event
bits. -/
theorem c1_bucket_formula_amended (T : AttTable) (addr : String) (ev : AttEvent)
    (ms : Int) (h : 0 ≤ ms) :
    (Int.tmod ms 100).toNat < 120 ∧
    cellOf (handleAttestation T addr ev ms).1 ev.slot (voteKeyOf ev) addr
        (Int.tmod ms 100).toNat =
      (mergeCell (cellOf T ev.slot (voteKeyOf ev) addr (Int.tmod ms 100).toNat)
        ev.aggregationBits).1 := by
  refine ⟨bucket_toNat_lt h, ?_⟩
  unfold handleAttestation
  rw [if_neg (bucket_guard_passes h)]
  cases hp : (insertPhase T addr ev (Int.tmod ms 100).toNat).2 with
  | true =>
    simp only [hp]
    exact cellOf_insertPhase T addr ev (bucket_toNat_lt h)
  | false =>
    simp only [hp]
    rw [if_neg Bool.false_ne_true]
    rcases hl : lookupA (wrapPred ev.slot)
        (insertPhase T addr ev (Int.tmod ms 100).toNat).1 with _ | entry
    · simp only [hl]
      exact cellOf_insertPhase T addr ev (bucket_toNat_lt h)
    · simp only [hl]
      rw [cellOf_eraseA_ne (Ne.symm (wrapPred_ne ev.slot))]
      exact cellOf_insertPhase T addr ev (bucket_toNat_lt h)

/-- C1 amended, witness at delay 250 ms from the empty table. -/
theorem c1_bucket_formula_amended_witness :
    (Int.tmod 250 100).toNat < 120 ∧
    cellOf (handleAttestation [] "A" ⟨5, 0, 1, 2, 3, [3]⟩ 250).1 5
        (voteKeyOf ⟨5, 0, 1, 2, 3, [3]⟩) "A" (Int.tmod 250 100).toNat =
      (mergeCell (cellOf [] 5 (voteKeyOf ⟨5, 0, 1, 2, 3, [3]⟩) "A"
        (Int.tmod 250 100).toNat) [3]).1 :=
  c1_bucket_formula_amended [] "A" ⟨5, 0, 1, 2, 3, [3]⟩ 250 (by decide)

/-- C2, counterexample. The spec says an event whose delay is at least
12 seconds is discarded before any histogram observation or table
mutation. At exactly 12 s (12×10⁹ ns) the gate `delay.Seconds() > 12`
does not fire: the event is observed and aggregated. -/
theorem c2_gate_boundary_counterexample :
    (12000000000 : Int) ≥ 12 * 1000000000 ∧
    (monitorAttestationEvent [] "A" none ⟨5, 0, 1, 2, 3, [3]⟩
      12000000000).observed = true ∧
    (monitorAttestationEvent [] "A" none ⟨5, 0, 1, 2, 3, [3]⟩
      12000000000).table ≠ [] := by
  decide

/-- C2, amended. An attestation event is discarded with no trace — no
histogram observation, no table change, no submission of either kind —
exactly when its delay is negative or strictly greater than 12 seconds;
every event with 0 ≤ delay ≤ 12 s passes the gate and is observed. -/
theorem c2_gate_amended (T : AttTable) (addr : String) (nv : Option String)
    (ev : AttEvent) (ns : Int) :
    monitorAttestationEvent T addr nv ev ns = ⟨T, none, none, false⟩ ↔
      ns < 0 ∨ ns > 12 * 1000000000 := by
  constructor
  · intro heq
    have hob := congrArg AttStep.observed heq
    rw [monitorAttestationEvent_observed] at hob
    have hgt : gateFails ns = true := by
      cases hgf : gateFails ns
      · rw [hgf] at hob
        simp at hob
      · rfl
    simp only [gateFails, Bool.or_eq_true, decide_eq_true_eq] at hgt
    exact hgt
  · intro hr
    have hg : gateFails ns = true := by
      simp only [gateFails, Bool.or_eq_true, decide_eq_true_eq]
      exact hr
    unfold monitorAttestationEvent
    rw [if_pos hg]

/-- C3, counterexample. The spec says an attestation whose aggregation
bits have zero set bits is discarded with no submission. The code
classifies by `Count() == 1`, so a zero-popcount event takes the
aggregate branch and a record is submitted. -/
theorem c3_zero_popcount_counterexample :
    bitlistCount [1] = 0 ∧
    (monitorAttestationEvent [] "A" (some "teku/v24") ⟨5, 0, 1, 2, 3, [1]⟩
      100000000).aggregateSub ≠ none := by
  decide

/-- C3, amended. A gate-passing event with zero-popcount aggregation
bits is routed to the aggregate-attestation path: the attestation table
is untouched and no summary is submitted, but one aggregate-attestation
record is submitted whenever the node-version query succeeds. -/
theorem c3_zero_popcount_amended (T : AttTable) (addr : String)
    (nv : Option String) (ev : AttEvent) (ns : Int)
    (h0 : bitlistCount ev.aggregationBits = 0) (hg : gateFails ns = false) :
    monitorAttestationEvent T addr nv ev ns =
      ⟨T, none,
        nv.map (fun v => ⟨v, ev.slot, ev.committee, ev.beaconBlockRoot,
          ev.sourceRoot, ev.targetRoot, ev.aggregationBits, goMilliseconds ns⟩),
        true⟩ := by
  unfold monitorAttestationEvent
  rw [if_neg (by simp [hg]), if_neg (by simp [h0])]
  cases nv <;> rfl

/-- C3 amended, witness. -/
theorem c3_zero_popcount_amended_witness :
    monitorAttestationEvent [] "A" (some "v") ⟨5, 0, 1, 2, 3, [1]⟩ 100000000 =
      ⟨[], none, some ⟨"v", 5, 0, 1, 2, 3, [1], 100⟩, true⟩ :=
  c3_zero_popcount_amended [] "A" (some "v") ⟨5, 0, 1, 2, 3, [1]⟩ 100000000
    (by decide) (by decide)

/-- C4. On a bitlist length mismatch the claim (and the spec's intent:
log, release the lock, drop the event) says the stored bucket bitlist is
preserved. The Go multi-assignment
`buckets[bucket], err = buckets[bucket].Or(...)` stores `Or`'s nil error
return before the error is checked, so the stored bitlist `[0x03]` is
destroyed: after the mismatching event the cell is nil, not `[0x03]`.
The event itself is dropped (no flush submission). -/
theorem c4_or_mismatch_clobbers_cell :
    cellOf (handleAttestation [] "A" ⟨5, 0, 1, 2, 3, [3]⟩ 250).1 5
      ⟨0, 1, 2, 3⟩ "A" 50 = some [3] ∧
    (handleAttestation (handleAttestation [] "A" ⟨5, 0, 1, 2, 3, [3]⟩ 250).1
      "A" ⟨5, 0, 1, 2, 3, [2, 2]⟩ 250).2 = none ∧
    cellOf (handleAttestation (handleAttestation [] "A" ⟨5, 0, 1, 2, 3, [3]⟩
      250).1 "A" ⟨5, 0, 1, 2, 3, [2, 2]⟩ 250).1 5 ⟨0, 1, 2, 3⟩ "A" 50 = none := by
  decide

/-- C7. The claim (and the spec: count a failure on any non-success
outcome) says exactly one counter moves per POST attempt. In
`submitBlockDelay` the failure branches do not return, so a failed send
(`createOk = true`, `sendOk = false`, response nil) increments the
failure counter and then falls through to increment the success counter
and observe the timer as well. -/
theorem c7_failed_send_double_count :
    submitBlockDelayPost true false true = (⟨1, 1, 1⟩, false) ∧
    (submitBlockDelayPost true false true).1.succeeded = 1 ∧
    (submitBlockDelayPost true false true).1.failed = 1 := by
  decide

/-- C8. When the upstream reports it is syncing the block observer only
logs and proceeds: the handler's output is identical to the non-syncing
case, and the block-delay record
`{"source":"<version>","method":"block event","slot":"<N>","delay_ms":"<ms>"}`
is still emitted. -/
theorem c8_syncing_still_emits (v : String) (slot : Nat) (ns : Int) :
    blockEventHandler (some true) (some v) slot ns =
      blockEventHandler (some false) (some v) slot ns ∧
    (blockEventHandler (some true) (some v) slot ns).1 =
      some (blockDelayBody v slot (goMilliseconds ns)) :=
  ⟨rfl, rfl⟩

/-- C10. A gate-passing singleton for slot 0 computes its flush key as
`0 - 1` on a `uint64`, i.e. `2^64 - 1`; when the table has no entry for
that key the handler submits nothing and the slot-0 entry it created is
retained. (The handler is a total function, so no panic is possible.) -/
theorem c10_slot_zero_wrap (T : AttTable) (addr : String) (ev : AttEvent)
    (ms : Int) (h0 : ev.slot = 0) (hm : 0 ≤ ms)
    (hT : lookupA (2 ^ 64 - 1) T = none) :
    wrapPred ev.slot = 2 ^ 64 - 1 ∧
    (handleAttestation T addr ev ms).2 = none ∧
    (lookupA 0 (handleAttestation T addr ev ms).1).isSome = true := by
  have hwp : wrapPred ev.slot = 2 ^ 64 - 1 := by
    rw [h0]
    decide
  refine ⟨hwp, ?_⟩
  unfold handleAttestation
  rw [if_neg (bucket_guard_passes hm)]
  obtain ⟨ss2, hss⟩ := insertPhase_table T addr ev (Int.tmod ms 100).toNat
  have hne : (2 ^ 64 - 1 : Nat) ≠ ev.slot := by
    rw [h0]
    decide
  have hlp : lookupA (wrapPred ev.slot)
      (insertPhase T addr ev (Int.tmod ms 100).toNat).1 = none := by
    rw [hwp, hss, lookupA_insertA_ne hne, hT]
  have hl0 : lookupA 0 (insertPhase T addr ev (Int.tmod ms 100).toNat).1 =
      some ss2 := by
    rw [hss, ← h0, lookupA_insertA_self]
  simp only [hlp, ite_self]
  exact ⟨by simp, by simp [hl0]⟩

/-- C10, witness: a slot-0 singleton into the empty table. -/
theorem c10_slot_zero_wrap_witness :
    wrapPred 0 = 2 ^ 64 - 1 ∧
    (handleAttestation [] "A" ⟨0, 0, 1, 2, 3, [3]⟩ 100).2 = none ∧
    (lookupA 0 (handleAttestation [] "A" ⟨0, 0, 1, 2, 3, [3]⟩ 100).1).isSome =
      true :=
  c10_slot_zero_wrap [] "A" ⟨0, 0, 1, 2, 3, [3]⟩ 100 rfl (by decide)
    (by decide)

/-- C6. For a singleton whose OR-merge succeeds (the event is
aggregated), a summary submission happens in that handler call exactly
when the table held an entry for slot − 1; when it does, the submitted
record carries slot − 1 (as a `uint64`) together with exactly the stored
entry, and that entry — and nothing else — is removed from the table. -/
theorem c6_flush_rule (T : AttTable) (addr : String) (ev : AttEvent) (ms : Int)
    (hm : 0 ≤ ms)
    (hagg : (insertPhase T addr ev (Int.tmod ms 100).toNat).2 = false)
    (hnd : (T.map Prod.fst).Nodup) :
    ((handleAttestation T addr ev ms).2.isSome ↔
      (lookupA (wrapPred ev.slot) T).isSome) ∧
    ∀ entry, lookupA (wrapPred ev.slot) T = some entry →
      (handleAttestation T addr ev ms).2 = some ⟨wrapPred ev.slot, entry⟩ ∧
      lookupA (wrapPred ev.slot) (handleAttestation T addr ev ms).1 = none ∧
      (handleAttestation T addr ev ms).1 =
        eraseA (wrapPred ev.slot)
          (insertPhase T addr ev (Int.tmod ms 100).toNat).1 := by
  obtain ⟨ss2, hss⟩ := insertPhase_table T addr ev (Int.tmod ms 100).toNat
  have hlp : lookupA (wrapPred ev.slot)
      (insertPhase T addr ev (Int.tmod ms 100).toNat).1 =
      lookupA (wrapPred ev.slot) T := by
    rw [hss, lookupA_insertA_ne (wrapPred_ne ev.slot)]
  have hnd2 : (((insertPhase T addr ev (Int.tmod ms 100).toNat).1).map
      Prod.fst).Nodup := by
    rw [hss]
    exact keys_nodup_insertA ss2 hnd
  unfold handleAttestation
  rw [if_neg (bucket_guard_passes hm)]
  simp only [hagg]
  rw [if_neg Bool.false_ne_true]
  rw [hlp]
  rcases hl : lookupA (wrapPred ev.slot) T with _ | entry2
  · simp only [hl]
    refine ⟨by simp, ?_⟩
    intro entry hentry
    exact Option.noConfusion hentry
  · simp only [hl]
    refine ⟨by simp, ?_⟩
    intro entry hentry
    injection hentry with he
    subst he
    exact ⟨rfl, lookupA_eraseA_self hnd2, trivial⟩

/-- C6, witness: a slot-5 singleton flushing the stored slot-4 entry. -/
theorem c6_flush_rule_witness :
    (((handleAttestation [(4, [])] "A" ⟨5, 0, 1, 2, 3, [3]⟩ 250).2.isSome ↔
      (lookupA (wrapPred 5) ([(4, [])] : AttTable)).isSome)) ∧
    ∀ entry, lookupA (wrapPred 5) ([(4, [])] : AttTable) = some entry →
      (handleAttestation [(4, [])] "A" ⟨5, 0, 1, 2, 3, [3]⟩ 250).2 =
        some ⟨wrapPred 5, entry⟩ ∧
      lookupA (wrapPred 5)
        (handleAttestation [(4, [])] "A" ⟨5, 0, 1, 2, 3, [3]⟩ 250).1 = none ∧
      (handleAttestation [(4, [])] "A" ⟨5, 0, 1, 2, 3, [3]⟩ 250).1 =
        eraseA (wrapPred 5)
          (insertPhase [(4, [])] "A" ⟨5, 0, 1, 2, 3, [3]⟩
            (Int.tmod 250 100).toNat).1 :=
  c6_flush_rule [(4, [])] "A" ⟨5, 0, 1, 2, 3, [3]⟩ 250 (by decide) (by decide)
    (by decide)

/-! ### OR-merge algebra -/

theorem zipWith_lor_comm (a : List Nat) :
    ∀ b, List.zipWith Nat.lor a b = List.zipWith Nat.lor b a := by
  induction a with
  | nil =>
    intro b
    cases b <;> simp
  | cons x xs ih =>
    intro b
    cases b with
    | nil => simp
    | cons y ys =>
      rw [List.zipWith_cons_cons, List.zipWith_cons_cons, ih]
      exact congrArg (fun z => z :: List.zipWith Nat.lor ys xs) (Nat.or_comm x y)

theorem zipWith_lor_self (a : List Nat) : List.zipWith Nat.lor a a = a := by
  induction a with
  | nil => simp
  | cons x xs ih =>
    rw [List.zipWith_cons_cons, ih]
    exact congrArg (fun z => z :: xs) (Nat.or_self x)

/-- The insert/merge phase on the empty table stores the bits at the
given bucket with no error. -/
theorem insertPhase_empty (addr : String) (s c r1 r2 r3 : Nat)
    (b : Bitlist) (bkt : Nat) :
    insertPhase [] addr ⟨s, c, r1, r2, r3, b⟩ bkt =
      ([(s, [(⟨c, r1, r2, r3⟩, ⟨c, r1, r2, r3,
        [(addr, bucketsSet emptyBuckets bkt (some b))]⟩)])], false) := by
  unfold insertPhase
  simp only [lookupA, Option.getD_none, bucketsGet_emptyBuckets, mergeCell,
    insertA, voteKeyOf, freshSummary]

/-- The insert/merge phase for a second singleton of the same vote,
source and bucket OR-merges the stored cell when the bit lengths agree. -/
theorem insertPhase_second (addr : String) (s c r1 r2 r3 : Nat)
    (b1 b2 : Bitlist) (bkt : Nat) (hlt : bkt < 120)
    (hlen : bitlistLen b1 = bitlistLen b2) :
    insertPhase [(s, [(⟨c, r1, r2, r3⟩, ⟨c, r1, r2, r3,
        [(addr, bucketsSet emptyBuckets bkt (some b1))]⟩)])]
      addr ⟨s, c, r1, r2, r3, b2⟩ bkt =
      ([(s, [(⟨c, r1, r2, r3⟩, ⟨c, r1, r2, r3,
        [(addr, bucketsSet emptyBuckets bkt
          (some (List.zipWith Nat.lor b1 b2)))]⟩)])], false) := by
  unfold insertPhase
  simp only [lookupA, voteKeyOf, insertA, eq_self_iff_true, if_true,
    Option.getD_some]
  rw [bucketsGet_bucketsSet_self _ _ _ hlt]
  simp only [mergeCell, bitlistOr]
  rw [if_pos hlen]
  simp only [bucketsSet_bucketsSet]

/-- The table key `slot - 1` never hits a singleton entry for `slot`. -/
theorem lookupA_wrapPred_single (s : Nat) (x : SlotSummaries) :
    lookupA (wrapPred s) [(s, x)] = none := by
  have h := wrapPred_ne s
  simp only [lookupA, if_neg h]

/-- When the insert/merge phase succeeds and `slot - 1` is absent, the
handler returns the merged table and submits nothing. -/
theorem handleAttestation_no_flush (T : AttTable) (addr : String)
    (ev : AttEvent) (ms : Int) (h : 0 ≤ ms) (TBL : AttTable)
    (hins : insertPhase T addr ev (Int.tmod ms 100).toNat = (TBL, false))
    (hlk : lookupA (wrapPred ev.slot) TBL = none) :
    handleAttestation T addr ev ms = (TBL, none) := by
  unfold handleAttestation
  rw [if_neg (bucket_guard_passes h), hins]
  show (match lookupA (wrapPred ev.slot) TBL with
    | none => (TBL, none)
    | some entry =>
      (eraseA (wrapPred ev.slot) TBL,
        some (Submission.mk (wrapPred ev.slot) entry))) =
    ((TBL, none) : AttTable × Option Submission)
  rw [hlk]

/-- A gate-passing singleton into the empty table stores its bits at
bucket `ms mod 100` and flushes nothing. -/
theorem handleAttestation_empty (addr : String) (s c r1 r2 r3 : Nat)
    (b : Bitlist) (ms : Int) (h : 0 ≤ ms) :
    handleAttestation [] addr ⟨s, c, r1, r2, r3, b⟩ ms =
      ([(s, [(⟨c, r1, r2, r3⟩, ⟨c, r1, r2, r3,
        [(addr, bucketsSet emptyBuckets (Int.tmod ms 100).toNat (some b))]⟩)])],
       none) :=
  handleAttestation_no_flush [] addr ⟨s, c, r1, r2, r3, b⟩ ms h _
    (insertPhase_empty addr s c r1 r2 r3 b (Int.tmod ms 100).toNat)
    (lookupA_wrapPred_single s _)

/-- A second gate-passing singleton for the same vote, source and bucket
OR-merges into the stored cell when the bit lengths agree. -/
theorem handleAttestation_second (addr : String) (s c r1 r2 r3 : Nat)
    (b1 b2 : Bitlist) (ms1 ms2 : Int) (h1 : 0 ≤ ms1) (h2 : 0 ≤ ms2)
    (hb : Int.tmod ms2 100 = Int.tmod ms1 100)
    (hlen : bitlistLen b1 = bitlistLen b2) :
    handleAttestation
      [(s, [(⟨c, r1, r2, r3⟩, ⟨c, r1, r2, r3,
        [(addr, bucketsSet emptyBuckets (Int.tmod ms1 100).toNat (some b1))]⟩)])]
      addr ⟨s, c, r1, r2, r3, b2⟩ ms2 =
      ([(s, [(⟨c, r1, r2, r3⟩, ⟨c, r1, r2, r3,
        [(addr, bucketsSet emptyBuckets (Int.tmod ms1 100).toNat
          (some (List.zipWith Nat.lor b1 b2)))]⟩)])], none) := by
  apply handleAttestation_no_flush _ addr _ ms2 h2
  · rw [hb]
    exact insertPhase_second addr s c r1 r2 r3 b1 b2 (Int.tmod ms1 100).toNat
      (bucket_toNat_lt h1) hlen
  · exact lookupA_wrapPred_single s _

/-- C9. Two singletons for the same `(slot, vote key, source, bucket)`
with equal-length aggregation bits commute: processing them in either
order from the empty table leaves the same stored bucket bitlist and
table (hence the same flushed summary later); and replaying the same
singleton twice stores the same bitlist as replaying it once. -/
theorem c9_or_merge_comm_idem (addr : String) (s c r1 r2 r3 : Nat)
    (b1 b2 : Bitlist) (ms1 ms2 : Int) (h1 : 0 ≤ ms1) (h2 : 0 ≤ ms2)
    (hb : Int.tmod ms1 100 = Int.tmod ms2 100)
    (hlen : bitlistLen b1 = bitlistLen b2) :
    processSingletons [] [(addr, ⟨s, c, r1, r2, r3, b1⟩, ms1),
        (addr, ⟨s, c, r1, r2, r3, b2⟩, ms2)] =
      processSingletons [] [(addr, ⟨s, c, r1, r2, r3, b2⟩, ms2),
        (addr, ⟨s, c, r1, r2, r3, b1⟩, ms1)] ∧
    processSingletons [] [(addr, ⟨s, c, r1, r2, r3, b1⟩, ms1),
        (addr, ⟨s, c, r1, r2, r3, b1⟩, ms1)] =
      processSingletons [] [(addr, ⟨s, c, r1, r2, r3, b1⟩, ms1)] := by
  constructor
  · simp only [processSingletons]
    rw [handleAttestation_empty addr s c r1 r2 r3 b1 ms1 h1,
      handleAttestation_empty addr s c r1 r2 r3 b2 ms2 h2]
    simp only
    rw [handleAttestation_second addr s c r1 r2 r3 b1 b2 ms1 ms2 h1 h2
      hb.symm hlen,
      handleAttestation_second addr s c r1 r2 r3 b2 b1 ms2 ms1 h2 h1
      hb hlen.symm, hb, zipWith_lor_comm b1 b2]
  · simp only [processSingletons]
    rw [handleAttestation_empty addr s c r1 r2 r3 b1 ms1 h1]
    simp only
    rw [handleAttestation_second addr s c r1 r2 r3 b1 b1 ms1 ms1 h1 h1
      rfl rfl, zipWith_lor_self b1]

/-- C9, witness: delays 150 ms and 250 ms (same bucket 50), bits `0x05`
and `0x06` (both of bit length 2). -/
theorem c9_or_merge_comm_idem_witness :
    processSingletons [] [("A", ⟨7, 0, 1, 2, 3, [5]⟩, 150),
        ("A", ⟨7, 0, 1, 2, 3, [6]⟩, 250)] =
      processSingletons [] [("A", ⟨7, 0, 1, 2, 3, [6]⟩, 250),
        ("A", ⟨7, 0, 1, 2, 3, [5]⟩, 150)] ∧
    processSingletons [] [("A", ⟨7, 0, 1, 2, 3, [5]⟩, 150),
        ("A", ⟨7, 0, 1, 2, 3, [5]⟩, 150)] =
      processSingletons [] [("A", ⟨7, 0, 1, 2, 3, [5]⟩, 150)] :=
  c9_or_merge_comm_idem "A" 7 0 1 2 3 [5] [6] 150 250 (by decide) (by decide)
    (by decide) (by decide)

/-! ### Slot-count invariant -/

/-- Gate-valid singleton sequences whose slots move in steps of at most
one: each event's slot is the previous slot or its successor, its delay
is nonnegative (it passed the gate) and its slot fits in a `uint64`. -/
def consecFrom (s : Nat) : List (String × AttEvent × Int) → Bool
  | [] => true
  | (_, ev, ms) :: t =>
    (ev.slot == s || ev.slot == s + 1) && decide (0 ≤ ms) &&
      decide (ev.slot < 2 ^ 64) && consecFrom ev.slot t

/-- One handler step on a table holding at most the previous slot leaves
exactly the event's slot in the table. -/
theorem handleAttestation_slots_step (T : AttTable) (addr : String)
    (ev : AttEvent) (ms : Int) (s0 : Nat) (hms : 0 ≤ ms)
    (hlt : ev.slot < 2 ^ 64) (hslot : ev.slot = s0 ∨ ev.slot = s0 + 1)
    (hT : tableSlots T = [] ∨ tableSlots T = [s0]) :
    tableSlots (handleAttestation T addr ev ms).1 = [ev.slot] := by
  obtain ⟨ss2, hss⟩ := insertPhase_table T addr ev (Int.tmod ms 100).toNat
  rcases hT with hT | hT
  · have hnone : lookupA ev.slot T = none := by
      rw [lookupA_eq_none_iff]
      unfold tableSlots at hT
      rw [hT]
      simp
    have herr := insertPhase_fresh_no_error T addr ev (Int.tmod ms 100).toNat
      hnone
    have hkeys : tableSlots (insertPhase T addr ev
        (Int.tmod ms 100).toNat).1 = [ev.slot] := by
      unfold tableSlots
      rw [hss, keys_insertA_of_not_mem]
      · unfold tableSlots at hT
        rw [hT]
        rfl
      · rw [← lookupA_eq_none_iff]
        exact hnone
    have hflk : lookupA (wrapPred ev.slot)
        (insertPhase T addr ev (Int.tmod ms 100).toNat).1 = none := by
      rw [lookupA_eq_none_iff]
      unfold tableSlots at hkeys
      rw [hkeys]
      simp [wrapPred_ne ev.slot]
    unfold handleAttestation
    rw [if_neg (bucket_guard_passes hms)]
    simp only [herr]
    rw [if_neg Bool.false_ne_true]
    simp only [hflk]
    exact hkeys
  · rcases hslot with he | he
    · have hmem : ev.slot ∈ List.map Prod.fst T := by
        unfold tableSlots at hT
        rw [hT, he]
        simp
      have hkeys : tableSlots (insertPhase T addr ev
          (Int.tmod ms 100).toNat).1 = [s0] := by
        unfold tableSlots
        rw [hss, keys_insertA_of_mem ss2 hmem]
        unfold tableSlots at hT
        exact hT
      have hflk : lookupA (wrapPred ev.slot)
          (insertPhase T addr ev (Int.tmod ms 100).toNat).1 = none := by
        rw [lookupA_eq_none_iff]
        unfold tableSlots at hkeys
        rw [hkeys]
        simp only [List.mem_singleton]
        rw [← he]
        exact wrapPred_ne ev.slot
      unfold handleAttestation
      rw [if_neg (bucket_guard_passes hms)]
      simp only [hflk, ite_self]
      rw [he]
      exact hkeys
    · have hnone : lookupA ev.slot T = none := by
        rw [lookupA_eq_none_iff]
        unfold tableSlots at hT
        rw [hT, he]
        simp
      have herr := insertPhase_fresh_no_error T addr ev (Int.tmod ms 100).toNat
        hnone
      have hkeys : tableSlots (insertPhase T addr ev
          (Int.tmod ms 100).toNat).1 = [s0, ev.slot] := by
        unfold tableSlots
        rw [hss, keys_insertA_of_not_mem]
        · unfold tableSlots at hT
          rw [hT]
          rfl
        · rw [← lookupA_eq_none_iff]
          exact hnone
      have hw : wrapPred ev.slot = s0 := by
        rw [he]
        exact wrapPred_succ (he ▸ hlt)
      unfold handleAttestation
      rw [if_neg (bucket_guard_passes hms)]
      simp only [herr]
      rw [if_neg Bool.false_ne_true]
      rcases hl : lookupA (wrapPred ev.slot)
          (insertPhase T addr ev (Int.tmod ms 100).toNat).1 with _ | entry
      · exfalso
        rw [lookupA_eq_none_iff] at hl
        apply hl
        unfold tableSlots at hkeys
        rw [hkeys, hw]
        simp
      · simp only [hl]
        unfold tableSlots
        rw [keys_eraseA]
        unfold tableSlots at hkeys
        rw [hkeys, hw, List.erase_cons_head]

/-- The slot set after a gate-valid consecutive-slot singleton sequence
is empty or a single slot. -/
theorem processSingletons_slots (es : List (String × AttEvent × Int)) :
    ∀ (T : AttTable) (s0 : Nat),
      (tableSlots T = [] ∨ tableSlots T = [s0]) → consecFrom s0 es = true →
      ∃ s1, tableSlots (processSingletons T es) = [] ∨
        tableSlots (processSingletons T es) = [s1] := by
  induction es with
  | nil =>
    intro T s0 hT _
    exact ⟨s0, hT⟩
  | cons hd t ih =>
    intro T s0 hT hc
    obtain ⟨addr, ev, ms⟩ := hd
    simp only [consecFrom, Bool.and_eq_true, Bool.or_eq_true, beq_iff_eq,
      decide_eq_true_eq] at hc
    obtain ⟨⟨⟨hslot, hms⟩, hlt⟩, hrest⟩ := hc
    have hstep := handleAttestation_slots_step T addr ev ms s0 hms hlt hslot hT
    simp only [processSingletons]
    exact ih (handleAttestation T addr ev ms).1 ev.slot (Or.inr hstep) hrest

/-- C5, counterexample. The spec bounds the table at two slots for any
monotone non-decreasing slot sequence. Slots 1, 3, 5 are monotone
non-decreasing, yet after the third handler the table holds three
distinct slots: the flush only ever evicts `slot − 1`, so a gap leaves
the stale slot behind. -/
theorem c5_two_slot_bound_counterexample :
    ((1 : Nat) ≤ 3 ∧ (3 : Nat) ≤ 5) ∧
    (tableSlots (processSingletons []
      [("A", ⟨1, 0, 1, 2, 3, [3]⟩, 100), ("A", ⟨3, 0, 1, 2, 3, [3]⟩, 100),
        ("A", ⟨5, 0, 1, 2, 3, [3]⟩, 100)])).toFinset.card = 3 := by
  decide

/-- C5, amended. For gate-valid singleton sequences whose slots are
monotone non-decreasing in steps of at most one, the table holds at most
two distinct slots after every handler call (each prefix of such a
sequence again satisfies the hypothesis). -/
theorem c5_two_slot_bound_amended (es : List (String × AttEvent × Int))
    (s0 : Nat) (h : consecFrom s0 es = true) :
    (tableSlots (processSingletons [] es)).toFinset.card ≤ 2 := by
  obtain ⟨s1, hs | hs⟩ := processSingletons_slots es [] s0 (Or.inl rfl) h
  · rw [hs]
    simp
  · rw [hs]
    simp

/-- C5 amended, witness: consecutive slots 5, 6 from two sources. -/
theorem c5_two_slot_bound_amended_witness :
    consecFrom 5 [("A", ⟨5, 0, 1, 2, 3, [3]⟩, 100),
      ("B", ⟨6, 0, 1, 2, 3, [3]⟩, 200)] = true ∧
    (tableSlots (processSingletons []
      [("A", ⟨5, 0, 1, 2, 3, [3]⟩, 100),
        ("B", ⟨6, 0, 1, 2, 3, [3]⟩, 200)])).toFinset.card ≤ 2 :=
  ⟨by decide, c5_two_slot_bound_amended
    [("A", ⟨5, 0, 1, 2, 3, [3]⟩, 100), ("B", ⟨6, 0, 1, 2, 3, [3]⟩, 200)] 5
    (by decide)⟩

end Probec
